import Mathlib

/-!
# Verification of the HR dashboard's point-in-time resolution and filtering engine

A shallow embedding, in Lean 4, of the data-handling core of the
`hr_dashboard` package:

* `src/hr_dashboard/data_manager.py` — `get_filtered_data` and
  `enrich_employee_data` (point-in-time resolution of assignment
  histories, enrichment joins, the filter keep-mask, and restriction of
  dependent tables to surviving employee ids);
* `src/hr_dashboard/utils/data_health.py` — `check_headcount_trend`;
* `src/hr_dashboard/utils/export.py` and `src/hr_dashboard/filters.py` —
  the CSV/Parquet export paths (`export_to_csv`, `export_to_parquet`,
  `create_zip_download`, `get_download_data`).

Modelling conventions:

* A pandas `DataFrame` becomes a `List` of row structures, in frame order.
  Nullable columns become `Option` fields; a left merge that finds no
  partner yields `none` in the merged columns, mirroring pandas `NaN`.
* Dates compared only as points on a timeline (`start_date` of the
  assignment tables) are embedded as `Int` ordinals.  Dates whose calendar
  structure matters (`hire_date`, `termination_date`, compared against
  `date(year, 12, 31)` in the health check) are embedded as `HDate`
  triples ordered lexicographically, exactly as date comparison behaves.
* `sort_values("start_date", ascending=False)` is embedded following
  pandas' implementation of a descending sort (`nargsort`): reverse the
  rows, sort ascending, reverse the result.  The ascending kernel here is
  a structurally recursive insertion sort; numpy's default `quicksort`
  kernel degenerates to exactly this stable insertion sort on small
  arrays but is unstable in general, so no theorem below relies on how
  the kernel orders rows whose `start_date`s are equal.
* `drop_duplicates("employee_id", keep="first")` becomes
  `dropDupFirstBy`, which keeps the first occurrence of each key.
* pandas `merge(..., how="left")` becomes `leftMerge`: each left row is
  paired with every matching right row, or with `none` if there is no
  match, preserving left order.  Columns a merge has not yet added are
  carried as `none` placeholders in the accumulated row structure.
* Python floats (`base_salary`, coordinates) are embedded as `Int`; only
  their ordering is ever used by the code under verification.
* Python exceptions on the export paths become `Except String`; the
  availability of `pyarrow` and the possible per-table failure of
  `DataFrame.to_parquet` (behavior of an external library) are
  parameters of the model (`ExportEnv`).
-/

/-- A calendar date `(year, month, day)`, ordered lexicographically. -/
structure HDate where
  y : Int
  m : Int
  d : Int
deriving DecidableEq

/-- `a ≤ b` on dates: the lexicographic comparison that pandas
timestamp comparison performs. -/
def HDate.ble (a b : HDate) : Bool :=
  decide (a.y < b.y) ||
    (decide (a.y = b.y) &&
      (decide (a.m < b.m) || (decide (a.m = b.m) && decide (a.d ≤ b.d))))

/-- Strict `a < b` on dates. -/
def HDate.blt (a b : HDate) : Bool :=
  !(HDate.ble b a)

/-- A row of the `employee` table.  Only the columns read by
`get_filtered_data`, `enrich_employee_data` and `check_headcount_trend`
are carried; the remaining generated columns are never inspected by the
code under verification. -/
structure Employee where
  employee_id : Nat
  location_id : Nat
  hire_date : HDate
  termination_date : Option HDate
deriving DecidableEq

/-- A row of the `employee_job_assignment` history table. -/
structure JobAssignment where
  employee_id : Nat
  job_id : Nat
  start_date : Int
deriving DecidableEq

/-- A row of the `employee_org_assignment` history table. -/
structure OrgAssignment where
  employee_id : Nat
  org_id : Nat
  start_date : Int
deriving DecidableEq

/-- A row of the `employee_compensation` history table. -/
structure Compensation where
  employee_id : Nat
  base_salary : Int
  currency : String
  start_date : Int
deriving DecidableEq

/-- A row of the `employee_performance` table. -/
structure Performance where
  employee_id : Nat
  rating : Int
  review_year : Int
deriving DecidableEq

/-- A row of the `job_role` reference table.  `seniority_level` is
nullable: `filters.py` calls `.dropna()` on it. -/
structure JobRole where
  job_id : Nat
  job_title : String
  job_family : String
  job_level : String
  seniority_level : Option Int
deriving DecidableEq

/-- A row of the `organization_unit` reference table.  `business_unit` is
nullable: `filters.py` calls `.dropna()` on it. -/
structure OrganizationUnit where
  org_id : Nat
  org_name : String
  business_unit : Option String
deriving DecidableEq

/-- A row of the `location` reference table. -/
structure Location where
  location_id : Nat
  city : String
  country : String
  region : String
deriving DecidableEq

/-- The dictionary of tables produced by the generator.  The
`employee_compensation` and `employee_performance` keys may be absent
(the source guards them with `"..." in data`), hence the `Option`. -/
structure HRData where
  employee : List Employee
  employee_job_assignment : List JobAssignment
  employee_org_assignment : List OrgAssignment
  employee_compensation : Option (List Compensation)
  employee_performance : Option (List Performance)
  organization_unit : List OrganizationUnit
  job_role : List JobRole
  location : List Location
deriving DecidableEq

/-! ## Sorting: `sort_values("start_date", ascending=False)` -/

/-- Insert `x` into `l` before the first element whose key is not
smaller, so that equal keys keep their relative order. -/
def insertAscBy (start : α → Int) (x : α) : List α → List α
  | [] => [x]
  | y :: ys => if start x ≤ start y then x :: y :: ys else y :: insertAscBy start x ys

/-- Stable ascending insertion sort by an `Int` key. -/
def sortAscBy (start : α → Int) : List α → List α
  | [] => []
  | x :: xs => insertAscBy start x (sortAscBy start xs)

/-- `sort_values(key, ascending=False)`: pandas' `nargsort` reverses the
rows, sorts them ascending with the chosen kernel, and reverses the
result. -/
def sortDescBy (start : α → Int) (rows : List α) : List α :=
  (sortAscBy start rows.reverse).reverse

/-! ## `drop_duplicates("employee_id", keep="first")` -/

/-- Keep the first occurrence of each key, dropping later rows whose key
was already seen.  `seen` accumulates the keys of kept rows. -/
def dropDupFirstBy (key : α → Nat) (seen : List Nat) : List α → List α
  | [] => []
  | x :: xs =>
    if key x ∈ seen then dropDupFirstBy key seen xs
    else x :: dropDupFirstBy key (key x :: seen) xs

/-- Point-in-time resolution, as `get_filtered_data` and
`enrich_employee_data` perform it on each assignment history table:
sort descending by `start_date`, keep the first row per employee id. -/
def currentPerEmployee (key : α → Nat) (start : α → Int) (rows : List α) : List α :=
  dropDupFirstBy key [] (sortDescBy start rows)

/-! ## `merge(..., how="left")` -/

/-- The block of output rows a single left row produces in a pandas left
merge: one row per matching right row, or a single row with null merged
columns when nothing matches. -/
def leftMergeRow (m : α → β → Bool) (c : α → Option β → γ) (right : List β) (a : α) :
    List γ :=
  match right.filter (m a) with
  | [] => [c a none]
  | ms => ms.map fun b => c a (some b)

/-- pandas `left.merge(right, how="left")`: left order preserved, each
left row paired with its matching right rows (or `none`). -/
def leftMerge (m : α → β → Bool) (c : α → Option β → γ) (right : List β) :
    List α → List γ
  | [] => []
  | a :: as => leftMergeRow m c right a ++ leftMerge m c right as

/-! ## The filter engine (`get_filtered_data`) -/

/-- The filter arguments of `get_filtered_data`.  In the source each list
defaults to `None` and is tested with `if xs:`, under which `None` and
the empty list behave identically, so both are embedded as `[]`.
`date_range` is accepted by the source but never read. -/
structure Filters where
  business_units : List String
  seniority_levels : List Int
  date_range : Option (Int × Int)
  salary_range : Option (Int × Int)
  countries : List String

/-- The enriched employee view `get_filtered_data` builds for filtering:
the employee row left-joined with its current job's `job_id`, that job's
`seniority_level`, its current org's `org_id`, that org's
`business_unit`, and its location's `country`.  Columns not yet merged
are `none`. -/
structure Enriched where
  employee_id : Nat
  location_id : Nat
  job_id : Option Nat
  seniority_level : Option Int
  org_id : Option Nat
  business_unit : Option String
  country : Option String
deriving DecidableEq

/-- `current_jobs`: point-in-time resolution of the job assignment
history. -/
def currentJobsOf (d : HRData) : List JobAssignment :=
  currentPerEmployee JobAssignment.employee_id JobAssignment.start_date
    d.employee_job_assignment

/-- `current_orgs`: point-in-time resolution of the org assignment
history. -/
def currentOrgsOf (d : HRData) : List OrgAssignment :=
  currentPerEmployee OrgAssignment.employee_id OrgAssignment.start_date
    d.employee_org_assignment

/-- First merge of `get_filtered_data`: employees with
`current_jobs[["employee_id", "job_id"]]` on `employee_id`. -/
def filterStage1 (d : HRData) : List Enriched :=
  leftMerge (fun (e : Employee) (j : JobAssignment) => decide (j.employee_id = e.employee_id))
    (fun e jo =>
      { employee_id := e.employee_id, location_id := e.location_id
        job_id := jo.map JobAssignment.job_id, seniority_level := none
        org_id := none, business_unit := none, country := none })
    (currentJobsOf d) d.employee

/-- Second merge: `job_roles[["job_id", "seniority_level"]]` on
`job_id`. -/
def filterStage2 (d : HRData) : List Enriched :=
  leftMerge (fun (p : Enriched) (r : JobRole) => decide (p.job_id = some r.job_id))
    (fun p ro => { p with seniority_level := ro.bind JobRole.seniority_level })
    d.job_role (filterStage1 d)

/-- Third merge: `current_orgs[["employee_id", "org_id"]]` on
`employee_id`. -/
def filterStage3 (d : HRData) : List Enriched :=
  leftMerge (fun (p : Enriched) (o : OrgAssignment) => decide (o.employee_id = p.employee_id))
    (fun p oo => { p with org_id := oo.map OrgAssignment.org_id })
    (currentOrgsOf d) (filterStage2 d)

/-- Fourth merge: `org_units[["org_id", "business_unit"]]` on `org_id`. -/
def filterStage4 (d : HRData) : List Enriched :=
  leftMerge (fun (p : Enriched) (u : OrganizationUnit) => decide (p.org_id = some u.org_id))
    (fun p uo => { p with business_unit := uo.bind OrganizationUnit.business_unit })
    d.organization_unit (filterStage3 d)

/-- The five successive left merges of `get_filtered_data`
(`data_manager.py`, lines 174-188); the fifth merges
`locations[["location_id", "country"]]` on `location_id`. -/
def enrichForFilter (d : HRData) : List Enriched :=
  leftMerge (fun (p : Enriched) (l : Location) => decide (l.location_id = p.location_id))
    (fun p lo => { p with country := lo.map Location.country })
    d.location (filterStage4 d)

/-- Business-unit predicate of the keep-mask:
`isin(business_units) | isna()` — a missing business unit passes. -/
def buPass (business_units : List String) (e : Enriched) : Bool :=
  match e.business_unit with
  | some b => decide (b ∈ business_units)
  | none => true

/-- Seniority predicate of the keep-mask: `isin(seniority_levels)` —
a missing seniority level does not pass. -/
def seniorityPass (levels : List Int) (e : Enriched) : Bool :=
  match e.seniority_level with
  | some s => decide (s ∈ levels)
  | none => false

/-- Country predicate of the keep-mask: `isin(countries)` — a missing
country does not pass. -/
def countryPass (cs : List String) (e : Enriched) : Bool :=
  match e.country with
  | some c => decide (c ∈ cs)
  | none => false

/-- Employee ids whose current (most recent) compensation row has
`base_salary` within `[lo, hi]`. -/
def validSalaryIds (comp : List Compensation) (lo hi : Int) : List Nat :=
  ((currentPerEmployee Compensation.employee_id Compensation.start_date comp).filter
    fun c => decide (lo ≤ c.base_salary) && decide (c.base_salary ≤ hi)).map
    Compensation.employee_id

/-- Salary predicate of the keep-mask:
`employees_enriched["employee_id"].isin(valid_emp_ids)`. -/
def salaryPass (validIds : List Nat) (e : Enriched) : Bool :=
  decide (e.employee_id ∈ validIds)

/-- The keep-mask of `get_filtered_data`: the AND of the per-field
predicates, each applied only when its filter argument is truthy (and,
for the salary range, only when the compensation table is present). -/
def keepMask (d : HRData) (f : Filters) (e : Enriched) : Bool :=
  (if f.business_units.isEmpty then true else buPass f.business_units e) &&
  (if f.seniority_levels.isEmpty then true else seniorityPass f.seniority_levels e) &&
  (if f.countries.isEmpty then true else countryPass f.countries e) &&
  (match f.salary_range, d.employee_compensation with
   | some (lo, hi), some comp => salaryPass (validSalaryIds comp lo hi) e
   | _, _ => true)

/-- `filtered_emp_ids`: employee ids of the enriched rows surviving the
keep-mask. -/
def survivingIds (d : HRData) (f : Filters) : List Nat :=
  ((enrichForFilter d).filter (keepMask d f)).map Enriched.employee_id

/-- `get_filtered_data` (`data_manager.py`, lines 131-245): build the
enriched view, AND the per-field predicates into a keep-mask, restrict
every dependent table to the surviving employee ids, and pass the
reference tables through unchanged. -/
def get_filtered_data (d : HRData) (f : Filters) : HRData :=
  let ids := survivingIds d f
  { employee := d.employee.filter fun e => decide (e.employee_id ∈ ids)
    employee_job_assignment :=
      d.employee_job_assignment.filter fun a => decide (a.employee_id ∈ ids)
    employee_org_assignment :=
      d.employee_org_assignment.filter fun a => decide (a.employee_id ∈ ids)
    employee_compensation :=
      d.employee_compensation.map fun t => t.filter fun c => decide (c.employee_id ∈ ids)
    employee_performance :=
      d.employee_performance.map fun t => t.filter fun p => decide (p.employee_id ∈ ids)
    organization_unit := d.organization_unit
    job_role := d.job_role
    location := d.location }

/-- `get_filtered_data` viewed as a state transformer on its input
dictionary.  Every pandas call in the source body is non-mutating
(`copy`, `sort_values`, `drop_duplicates`, `merge`, `isin`, boolean
indexing — none with `inplace=True`, and no assignment into `data`), so
the input component passes through untouched while the fresh `result`
dictionary is built. -/
def get_filtered_data_run (d : HRData) (f : Filters) : HRData × HRData :=
  (d, get_filtered_data d f)

/-- The business-unit options offered by the sidebar
(`filters.py`, lines 119-127): the distinct non-null `business_unit`
values of the `organization_unit` table (their sort order is
presentational only and never read by the filter engine). -/
def availableBusinessUnits (d : HRData) : List String :=
  (d.organization_unit.filterMap OrganizationUnit.business_unit).dedup

/-! ## `enrich_employee_data` -/

/-- The enriched employee frame built by `enrich_employee_data`: the
employee row plus, from each left merge, the selected columns of the
matching right row (held here as the whole matching row, whose selected
columns are all null exactly when the match is `none`). -/
structure EnrichedEmployee where
  base : Employee
  job_id : Option Nat
  role : Option JobRole
  org_id : Option Nat
  orgUnit : Option OrganizationUnit
  loc : Option Location
  comp : Option Compensation
deriving DecidableEq

/-- First merge of `enrich_employee_data`: employees with
`current_jobs[["employee_id", "job_id"]]` on `employee_id`. -/
def enrichStage1 (d : HRData) : List EnrichedEmployee :=
  leftMerge (fun (e : Employee) (j : JobAssignment) => decide (j.employee_id = e.employee_id))
    (fun e jo =>
      { base := e, job_id := jo.map JobAssignment.job_id, role := none
        org_id := none, orgUnit := none, loc := none, comp := none })
    (currentJobsOf d) d.employee

/-- Second merge: the selected `job_role` columns on `job_id`. -/
def enrichStage2 (d : HRData) : List EnrichedEmployee :=
  leftMerge (fun (p : EnrichedEmployee) (r : JobRole) => decide (p.job_id = some r.job_id))
    (fun p ro => { p with role := ro })
    d.job_role (enrichStage1 d)

/-- Third merge: `current_orgs[["employee_id", "org_id"]]` on
`employee_id`. -/
def enrichStage3 (d : HRData) : List EnrichedEmployee :=
  leftMerge (fun (p : EnrichedEmployee) (o : OrgAssignment) => decide (o.employee_id = p.base.employee_id))
    (fun p oo => { p with org_id := oo.map OrgAssignment.org_id })
    (currentOrgsOf d) (enrichStage2 d)

/-- Fourth merge: the selected `organization_unit` columns on `org_id`. -/
def enrichStage4 (d : HRData) : List EnrichedEmployee :=
  leftMerge (fun (p : EnrichedEmployee) (u : OrganizationUnit) => decide (p.org_id = some u.org_id))
    (fun p uo => { p with orgUnit := uo })
    d.organization_unit (enrichStage3 d)

/-- Fifth merge: the selected `location` columns on `location_id`. -/
def enrichStage5 (d : HRData) : List EnrichedEmployee :=
  leftMerge (fun (p : EnrichedEmployee) (l : Location) => decide (l.location_id = p.base.location_id))
    (fun p lo => { p with loc := lo })
    d.location (enrichStage4 d)

/-- Sixth merge, performed only when the compensation table is present:
`current_comp[["employee_id", "base_salary", "currency"]]` on
`employee_id`. -/
def enrichStage6 (d : HRData) (comp : List Compensation) : List EnrichedEmployee :=
  leftMerge (fun (p : EnrichedEmployee) (c : Compensation) => decide (c.employee_id = p.base.employee_id))
    (fun p co => { p with comp := co })
    (currentPerEmployee Compensation.employee_id Compensation.start_date comp)
    (enrichStage5 d)

/-- `enrich_employee_data` (`data_manager.py`, lines 248-310): resolve
current job/org/compensation per employee and left-join them, with the
`job_role`, `organization_unit` and `location` reference data, onto the
employee table.  The compensation merge happens only when the table is
present. -/
def enrich_employee_data (d : HRData) : List EnrichedEmployee :=
  match d.employee_compensation with
  | some comp => enrichStage6 d comp
  | none => enrichStage5 d

/-! ## Health check: `check_headcount_trend` -/

/-- Verdict of a health check. -/
inductive Status
  | pass
  | warning
  | fail
deriving DecidableEq

/-- Result of a single health check (`data_health.py`, `HealthCheck`). -/
structure HealthCheck where
  name : String
  status : Status
  message : String
  details : Option String
deriving DecidableEq

/-- Python `range(start_year, end_year + 1)` over integers. -/
def yearsRange (s e : Int) : List Int :=
  (List.range (e + 1 - s).toNat).map fun i => s + i

/-- `date(year, 12, 31)`. -/
def yearEndOf (y : Int) : HDate :=
  { y := y, m := 12, d := 31 }

/-- Headcount as of a year end: employees hired on or before it and not
terminated on or before it (a null `termination_date` counts as active).
The row count of a boolean selection, hence a natural number cast to
`Int`. -/
def headcountAsOf (emps : List Employee) (yearEnd : HDate) : Int :=
  ((emps.filter fun e =>
    HDate.ble e.hire_date yearEnd &&
      (match e.termination_date with
       | none => true
       | some t => HDate.blt yearEnd t)).length : Int)

/-- The year loop of `check_headcount_trend`: return `fail` at the first
year with negative headcount, `warning` at the first year with zero
headcount, `pass` if the loop finishes. -/
def checkHeadcountGo (emps : List Employee) : List Int → HealthCheck
  | [] => { name := "Headcount Trend", status := Status.pass
            message := "Headcount positive throughout", details := none }
  | y :: ys =>
    let hc := headcountAsOf emps (yearEndOf y)
    if hc < 0 then
      { name := "Headcount Trend", status := Status.fail
        message := "Negative headcount in " ++ toString y
        details := some ("Headcount: " ++ toString hc) }
    else if hc = 0 then
      { name := "Headcount Trend", status := Status.warning
        message := "Zero headcount in " ++ toString y
        details := some "All employees terminated before this date" }
    else checkHeadcountGo emps ys

/-- `check_headcount_trend` (`data_health.py`, lines 58-88). -/
def check_headcount_trend (emps : List Employee) (startYear endYear : Int) :
    HealthCheck :=
  checkHeadcountGo emps (yearsRange startYear endYear)

/-! ## Export paths (`utils/export.py`, `filters.py`) -/

/-- Export format selector (`Literal["csv", "parquet"]`). -/
inductive ExportFormat
  | csv
  | parquet
deriving DecidableEq

/-- A table to export; its cells as strings.  The export claims never
inspect cell contents. -/
structure PTable where
  rows : List (List String)
deriving DecidableEq

/-- External facts the export code reacts to: whether `pyarrow` imports
(`PARQUET_AVAILABLE`) and, per table, whether `DataFrame.to_parquet`
returns bytes or raises (`none`). -/
structure ExportEnv where
  parquetAvailable : Bool
  parquetEncode : PTable → Option String

/-- `export_to_csv`: `df.to_csv(index=False)`, total. -/
def export_to_csv (t : PTable) : String :=
  String.intercalate "\x0a" (t.rows.map (String.intercalate ","))

/-- `export_to_parquet`: raises `ImportError` when `pyarrow` is
unavailable, otherwise encodes (which may itself raise). -/
def export_to_parquet (env : ExportEnv) (t : PTable) : Except String String :=
  if env.parquetAvailable then
    match env.parquetEncode t with
    | some b => Except.ok b
    | none => Except.error "to_parquet raised"
  else
    Except.error "pyarrow is required for Parquet export"

/-- The `extension` local of `create_zip_download`. -/
def extensionFor (fmt : ExportFormat) : String :=
  match fmt with
  | ExportFormat.csv => ".csv"
  | ExportFormat.parquet => ".parquet"

/-- The `export_func` local of `create_zip_download` and
`get_download_data`, with its exception behavior explicit. -/
def exportFuncFor (env : ExportEnv) (fmt : ExportFormat) (t : PTable) :
    Except String String :=
  match fmt with
  | ExportFormat.csv => Except.ok (export_to_csv t)
  | ExportFormat.parquet => export_to_parquet env t

/-- One `zf.writestr(f"{name}{extension}", file_data)` entry. -/
def zipEntry (name content : String) : String :=
  name ++ ":" ++ content ++ ";"

/-- `create_zip_download` (`export.py`, lines 52-75): write every table
through `export_func` into the archive.  There is no `try`/`except`
here: an encoder error aborts the whole archive. -/
def create_zip_download (env : ExportEnv) (data : List (String × PTable))
    (fmt : ExportFormat) : Except String String :=
  match data with
  | [] => Except.ok ""
  | (n, t) :: rest =>
    match exportFuncFor env fmt t with
    | Except.error e => Except.error e
    | Except.ok b =>
      match create_zip_download env rest fmt with
      | Except.error e => Except.error e
      | Except.ok z => Except.ok (zipEntry (n ++ extensionFor fmt) b ++ z)

/-- The per-table body of `get_download_data` (`filters.py`, lines
260-265): `try: export_func(df) except Exception: export_to_csv(df)`. -/
def downloadOne (env : ExportEnv) (fmt : ExportFormat) (t : PTable) : String :=
  match exportFuncFor env fmt t with
  | Except.ok b => b
  | Except.error _ => export_to_csv t

/-- `get_download_data` (`filters.py`, lines 244-267): per-table export
with CSV fallback; never raises. -/
def get_download_data (env : ExportEnv) (data : List (String × PTable))
    (fmt : ExportFormat) : List (String × String) :=
  data.map fun nt => (nt.1, downloadOne env fmt nt.2)

/-! ## Concrete data used by witnesses and counterexamples -/

/-- A one-employee data set whose employee has no location row (so the
joined `country` is null), no assignments, and an empty (but present)
compensation table. -/
def dNullCountry : HRData :=
  { employee := [{ employee_id := 1, location_id := 7
                   hire_date := { y := 2020, m := 1, d := 15 }
                   termination_date := none }]
    employee_job_assignment := []
    employee_org_assignment := []
    employee_compensation := some []
    employee_performance := none
    organization_unit := [{ org_id := 4, org_name := "Core", business_unit := some "Engineering" }]
    job_role := []
    location := [] }

/-- Filters selecting every business unit and every country on offer in
`dNullCountry`. -/
def fNullCountry : Filters :=
  { business_units := ["Engineering"]
    seniority_levels := []
    date_range := none
    salary_range := none
    countries := ["Japan"] }

/-- The single enriched row `get_filtered_data` builds for
`dNullCountry`: every joined column is null. -/
def enNullCountry : Enriched :=
  { employee_id := 1, location_id := 7, job_id := none, seniority_level := none
    org_id := none, business_unit := none, country := none }

/-- A small data set exercising `enrich_employee_data`: two employees,
one fully assigned, one with no assignment or compensation rows. -/
def dEnrich : HRData :=
  { employee := [{ employee_id := 1, location_id := 10
                   hire_date := { y := 2019, m := 3, d := 1 }
                   termination_date := none },
                 { employee_id := 2, location_id := 11
                   hire_date := { y := 2021, m := 6, d := 2 }
                   termination_date := none }]
    employee_job_assignment := [{ employee_id := 1, job_id := 100, start_date := 5 },
                                { employee_id := 1, job_id := 101, start_date := 9 }]
    employee_org_assignment := [{ employee_id := 1, org_id := 40, start_date := 3 }]
    employee_compensation := some [{ employee_id := 1, base_salary := 90000
                                     currency := "USD", start_date := 2 }]
    employee_performance := none
    organization_unit := [{ org_id := 40, org_name := "Core", business_unit := some "Engineering" }]
    job_role := [{ job_id := 100, job_title := "Engineer I", job_family := "Engineering"
                   job_level := "IC1", seniority_level := some 1 },
                 { job_id := 101, job_title := "Engineer II", job_family := "Engineering"
                   job_level := "IC2", seniority_level := some 2 }]
    location := [{ location_id := 10, city := "Sydney", country := "Australia", region := "APAC" },
                 { location_id := 11, city := "Tokyo", country := "Japan", region := "APAC" }] }

/-- An export environment in which `pyarrow` is unavailable (every
`to_parquet` call would raise `ImportError`). -/
def envNoParquet : ExportEnv :=
  { parquetAvailable := false, parquetEncode := fun _ => none }

/-- A single-table export payload. -/
def dataOneTable : List (String × PTable) :=
  [("employee", { rows := [["employee_id"], ["1"]] })]

/-! # Theorems -/

/-! ## Sorting and deduplication lemmas -/

theorem insertAscBy_perm (start : α → Int) (x : α) (l : List α) :
    List.Perm (insertAscBy start x l) (x :: l) := by
  induction l with
  | nil => simp [insertAscBy]
  | cons y ys ih =>
    unfold insertAscBy
    split
    · exact List.Perm.refl _
    · exact ((ih.cons y).trans (List.Perm.swap x y ys))

theorem sortAscBy_perm (start : α → Int) (l : List α) :
    List.Perm (sortAscBy start l) l := by
  induction l with
  | nil => simp [sortAscBy]
  | cons x xs ih =>
    exact (insertAscBy_perm start x (sortAscBy start xs)).trans (ih.cons x)

theorem pairwise_insertAscBy (start : α → Int) (x : α) (l : List α)
    (h : l.Pairwise (fun a b => start a ≤ start b)) :
    (insertAscBy start x l).Pairwise (fun a b => start a ≤ start b) := by
  induction l with
  | nil => simp [insertAscBy]
  | cons y ys ih =>
    unfold insertAscBy
    split
    · rename_i hxy
      refine List.Pairwise.cons ?_ h
      intro z hz
      rw [List.mem_cons] at hz
      rcases hz with hz | hz
      · exact hz ▸ hxy
      · exact le_trans hxy ((List.pairwise_cons.mp h).1 z hz)
    · rename_i hxy
      refine List.Pairwise.cons ?_ (ih (List.pairwise_cons.mp h).2)
      intro z hz
      have hz' : z ∈ x :: ys :=
        (insertAscBy_perm start x ys).mem_iff.mp hz
      rw [List.mem_cons] at hz'
      rcases hz' with hz' | hz'
      · subst hz'
        omega
      · exact (List.pairwise_cons.mp h).1 z hz'

theorem pairwise_sortAscBy (start : α → Int) (l : List α) :
    (sortAscBy start l).Pairwise (fun a b => start a ≤ start b) := by
  induction l with
  | nil => simp [sortAscBy]
  | cons x xs ih =>
    exact pairwise_insertAscBy start x _ ih

theorem sortDescBy_perm (start : α → Int) (rows : List α) :
    List.Perm (sortDescBy start rows) rows := by
  unfold sortDescBy
  exact ((List.reverse_perm _).trans (sortAscBy_perm start _)).trans
    (List.reverse_perm _)

theorem pairwise_sortDescBy (start : α → Int) (rows : List α) :
    (sortDescBy start rows).Pairwise (fun a b => start b ≤ start a) := by
  unfold sortDescBy
  rw [List.pairwise_reverse]
  exact pairwise_sortAscBy start rows.reverse

theorem mem_dropDupFirstBy {key : α → Nat} {r : α} :
    ∀ {seen : List Nat} {l : List α}, r ∈ dropDupFirstBy key seen l →
      key r ∉ seen ∧
        ∃ l₁ l₂, l = l₁ ++ r :: l₂ ∧ ∀ s ∈ l₁, key s ≠ key r := by
  intro seen l
  induction l generalizing seen with
  | nil => intro h; simp [dropDupFirstBy] at h
  | cons x xs ih =>
    intro h
    unfold dropDupFirstBy at h
    split at h
    · rename_i hx
      obtain ⟨hseen, l₁, l₂, heq, hne⟩ := ih h
      refine ⟨hseen, x :: l₁, l₂, by simp [heq], ?_⟩
      intro s hs
      rw [List.mem_cons] at hs
      rcases hs with hs | hs
      · subst hs
        intro hc
        exact hseen (hc ▸ hx)
      · exact hne s hs
    · rename_i hx
      rw [List.mem_cons] at h
      rcases h with h | h
      · subst h
        exact ⟨hx, [], xs, rfl, by simp⟩
      · obtain ⟨hseen, l₁, l₂, heq, hne⟩ := ih h
        rw [List.mem_cons] at hseen
        push_neg at hseen
        refine ⟨hseen.2, x :: l₁, l₂, by simp [heq], ?_⟩
        intro s hs
        rw [List.mem_cons] at hs
        rcases hs with hs | hs
        · subst hs
          exact fun hc => hseen.1 hc.symm
        · exact hne s hs

theorem pairwise_ne_dropDupFirstBy {key : α → Nat} :
    ∀ (seen : List Nat) (l : List α),
      (dropDupFirstBy key seen l).Pairwise (fun a b => key a ≠ key b) := by
  intro seen l
  induction l generalizing seen with
  | nil => simp [dropDupFirstBy]
  | cons x xs ih =>
    unfold dropDupFirstBy
    split
    · exact ih seen
    · refine List.Pairwise.cons ?_ (ih (key x :: seen))
      intro y hy
      have hnot := (mem_dropDupFirstBy hy).1
      intro hc
      exact hnot (by rw [← hc]; exact List.mem_cons_self _ _)

/-- The kept rows are rows of the input list. -/
theorem mem_of_mem_currentPerEmployee {key : α → Nat} {start : α → Int}
    {rows : List α} {r : α} (h : r ∈ currentPerEmployee key start rows) :
    r ∈ rows := by
  obtain ⟨-, l₁, l₂, heq, -⟩ := mem_dropDupFirstBy h
  have hmem : r ∈ sortDescBy start rows := by
    rw [heq]; exact List.mem_append_right _ (List.mem_cons_self _ _)
  exact (sortDescBy_perm start rows).mem_iff.mp hmem

/-- The kept rows have pairwise distinct keys. -/
theorem pairwise_ne_currentPerEmployee (key : α → Nat) (start : α → Int)
    (rows : List α) :
    (currentPerEmployee key start rows).Pairwise (fun a b => key a ≠ key b) :=
  pairwise_ne_dropDupFirstBy [] _

/-- Each kept row carries the maximal `start` among its key's rows. -/
theorem max_of_mem_currentPerEmployee {key : α → Nat} {start : α → Int}
    {rows : List α} {r : α} (h : r ∈ currentPerEmployee key start rows) :
    ∀ s ∈ rows, key s = key r → start s ≤ start r := by
  intro s hs hkey
  obtain ⟨-, l₁, l₂, heq, hne⟩ := mem_dropDupFirstBy h
  have hsorted := pairwise_sortDescBy start rows
  rw [heq] at hsorted
  have hs' : s ∈ l₁ ++ r :: l₂ := by
    rw [← heq]
    exact (sortDescBy_perm start rows).mem_iff.mpr hs
  rw [List.mem_append] at hs'
  rcases hs' with hs' | hs'
  · exact absurd hkey (hne s hs')
  · rw [List.mem_cons] at hs'
    rcases hs' with hs' | hs'
    · subst hs'; exact le_refl _
    · have hrel := List.pairwise_cons.mp (List.pairwise_append.mp hsorted).2.1
      exact hrel.1 s hs'

/-! ## Left-merge lemmas -/

theorem mem_leftMergeRow {m : α → β → Bool} {c : α → Option β → γ}
    {right : List β} {a : α} {r : γ} (h : r ∈ leftMergeRow m c right a) :
    (right.filter (m a) = [] ∧ r = c a none) ∨
      ∃ b ∈ right.filter (m a), r = c a (some b) := by
  unfold leftMergeRow at h
  cases hf : right.filter (m a) with
  | nil =>
    rw [hf] at h
    simp at h
    exact Or.inl ⟨rfl, h⟩
  | cons b bs =>
    rw [hf] at h
    rw [List.mem_map] at h
    obtain ⟨x, hx, hr⟩ := h
    exact Or.inr ⟨x, hx, hr.symm⟩

theorem headRow_mem_leftMergeRow (m : α → β → Bool) (c : α → Option β → γ)
    (right : List β) (a : α) :
    c a (right.filter (m a)).head? ∈ leftMergeRow m c right a := by
  unfold leftMergeRow
  cases hf : right.filter (m a) with
  | nil => simp
  | cons b bs => simp

theorem mem_leftMerge {m : α → β → Bool} {c : α → Option β → γ}
    {right : List β} {left : List α} {r : γ} :
    r ∈ leftMerge m c right left ↔ ∃ a ∈ left, r ∈ leftMergeRow m c right a := by
  induction left with
  | nil => simp [leftMerge]
  | cons x xs ih =>
    show r ∈ leftMergeRow m c right x ++ leftMerge m c right xs ↔ _
    rw [List.mem_append, ih]
    constructor
    · rintro (h | ⟨a, ha, hr⟩)
      · exact ⟨x, List.mem_cons_self _ _, h⟩
      · exact ⟨a, List.mem_cons_of_mem _ ha, hr⟩
    · rintro ⟨a, ha, hr⟩
      rw [List.mem_cons] at ha
      rcases ha with ha | ha
      · exact Or.inl (ha ▸ hr)
      · exact Or.inr ⟨a, ha, hr⟩

/-- Every output row of a left merge is `c a bo` for some left row `a`,
where `bo` is `none` or a matching right row. -/
theorem mem_leftMerge_elim {m : α → β → Bool} {c : α → Option β → γ}
    {right : List β} {left : List α} {r : γ}
    (h : r ∈ leftMerge m c right left) :
    ∃ a ∈ left, ∃ bo : Option β, r = c a bo ∧
      (bo = none ∨ ∃ b ∈ right, bo = some b ∧ m a b = true) := by
  obtain ⟨a, ha, hrow⟩ := mem_leftMerge.mp h
  rcases mem_leftMergeRow hrow with ⟨-, hr⟩ | ⟨b, hb, hr⟩
  · exact ⟨a, ha, none, hr, Or.inl rfl⟩
  · rw [List.mem_filter] at hb
    exact ⟨a, ha, some b, hr, Or.inr ⟨b, hb.1, rfl, hb.2⟩⟩

/-- Every left row produces at least one output row. -/
theorem exists_mem_leftMerge (m : α → β → Bool) (c : α → Option β → γ)
    (right : List β) {left : List α} {a : α} (h : a ∈ left) :
    ∃ bo : Option β, c a bo ∈ leftMerge m c right left :=
  ⟨(right.filter (m a)).head?,
    mem_leftMerge.mpr ⟨a, h, headRow_mem_leftMergeRow m c right a⟩⟩

theorem length_filter_le_one_of_pairwise {p : β → Bool} {l : List β}
    (h : l.Pairwise fun a b => ¬(p a = true ∧ p b = true)) :
    (l.filter p).length ≤ 1 := by
  induction l with
  | nil => simp
  | cons x xs ih =>
    rw [List.pairwise_cons] at h
    by_cases hx : p x = true
    · rw [List.filter_cons_of_pos hx]
      have hnil : xs.filter p = [] := by
        rw [List.filter_eq_nil_iff]
        intro y hy hpy
        exact (h.1 y hy) ⟨hx, hpy⟩
      rw [hnil]
      simp
    · rw [List.filter_cons_of_neg hx]
      exact ih h.2

/-- When each left row has at most one matching right row, a left merge
is a map: one output row per left row, in order. -/
theorem leftMerge_eq_map {m : α → β → Bool} {c : α → Option β → γ}
    {right : List β} {left : List α}
    (h : ∀ a ∈ left, (right.filter (m a)).length ≤ 1) :
    leftMerge m c right left =
      left.map fun a => c a (right.filter (m a)).head? := by
  induction left with
  | nil => rfl
  | cons a as ih =>
    have hrow : leftMergeRow m c right a = [c a (right.filter (m a)).head?] := by
      unfold leftMergeRow
      cases hf : right.filter (m a) with
      | nil => simp
      | cons b bs =>
        have hlen := h a (List.mem_cons_self _ _)
        rw [hf] at hlen
        cases bs with
        | nil => simp
        | cons b2 bs2 => simp at hlen
    show leftMergeRow m c right a ++ leftMerge m c right as = _
    rw [hrow, List.map_cons, ih fun x hx => h x (List.mem_cons_of_mem _ hx)]
    rfl

/-! ## C2: point-in-time resolution — uniqueness and maximality -/

/-- C2: for every assignment history table, point-in-time resolution (as
performed in `get_filtered_data` and `enrich_employee_data` through
`currentPerEmployee`) returns at most one row per employee id, and each
kept row is a row of the input carrying the maximum `start_date` among
its employee's rows. -/
theorem c2_point_in_time_unique_and_latest (key : α → Nat) (start : α → Int)
    (rows : List α) :
    (currentPerEmployee key start rows).Pairwise (fun a b => key a ≠ key b) ∧
      ∀ r ∈ currentPerEmployee key start rows,
        r ∈ rows ∧ ∀ s ∈ rows, key s = key r → start s ≤ start r :=
  ⟨pairwise_ne_currentPerEmployee key start rows,
   fun _ hr => ⟨mem_of_mem_currentPerEmployee hr, max_of_mem_currentPerEmployee hr⟩⟩

/-- Witness for C2 at a concrete three-row history with two rows for
employee 1: the kept row is the later one. -/
theorem c2_point_in_time_witness :
    (⟨1, 11, 9⟩ : JobAssignment) ∈
        ([⟨1, 10, 5⟩, ⟨1, 11, 9⟩, ⟨2, 12, 3⟩] : List JobAssignment) ∧
      ∀ s ∈ ([⟨1, 10, 5⟩, ⟨1, 11, 9⟩, ⟨2, 12, 3⟩] : List JobAssignment),
        JobAssignment.employee_id s = JobAssignment.employee_id ⟨1, 11, 9⟩ →
          JobAssignment.start_date s ≤ JobAssignment.start_date ⟨1, 11, 9⟩ :=
  (c2_point_in_time_unique_and_latest JobAssignment.employee_id
      JobAssignment.start_date [⟨1, 10, 5⟩, ⟨1, 11, 9⟩, ⟨2, 12, 3⟩]).2
    ⟨1, 11, 9⟩ (by decide)

/-! ## C5: dependent tables restricted to surviving employee ids -/

/-- C5: each dependent table of `get_filtered_data`'s output consists of
exactly the rows of the corresponding input table whose `employee_id`
is among the surviving employee ids (the compensation and performance
tables when present). -/
theorem c5_dependent_tables_restricted (d : HRData) (f : Filters) :
    (get_filtered_data d f).employee =
        d.employee.filter (fun e => decide (e.employee_id ∈ survivingIds d f)) ∧
      (get_filtered_data d f).employee_job_assignment =
        d.employee_job_assignment.filter
          (fun a => decide (a.employee_id ∈ survivingIds d f)) ∧
      (get_filtered_data d f).employee_org_assignment =
        d.employee_org_assignment.filter
          (fun a => decide (a.employee_id ∈ survivingIds d f)) ∧
      (get_filtered_data d f).employee_compensation =
        d.employee_compensation.map
          (fun t => t.filter fun c => decide (c.employee_id ∈ survivingIds d f)) ∧
      (get_filtered_data d f).employee_performance =
        d.employee_performance.map
          (fun t => t.filter fun p => decide (p.employee_id ∈ survivingIds d f)) :=
  ⟨rfl, rfl, rfl, rfl, rfl⟩

/-! ## C6: the headcount-trend health check -/

theorem headcountAsOf_nonneg (emps : List Employee) (ye : HDate) :
    0 ≤ headcountAsOf emps ye :=
  Int.natCast_nonneg _

theorem checkHeadcountGo_ne_fail (emps : List Employee) :
    ∀ ys : List Int, (checkHeadcountGo emps ys).status ≠ Status.fail := by
  intro ys
  induction ys with
  | nil => simp [checkHeadcountGo]
  | cons y ys ih =>
    unfold checkHeadcountGo
    rw [if_neg (not_lt.mpr (headcountAsOf_nonneg emps (yearEndOf y)))]
    split
    · simp
    · exact ih

/-- C6: `check_headcount_trend` returns the verdict `fail` iff the
computed headcount is negative for some year in range.  (Headcount is a
row count, so both sides are always false: the check can never fail.) -/
theorem c6_headcount_trend_fail_iff (emps : List Employee) (s e : Int) :
    (check_headcount_trend emps s e).status = Status.fail ↔
      ∃ y ∈ yearsRange s e, headcountAsOf emps (yearEndOf y) < 0 := by
  constructor
  · intro h
    exact absurd h (checkHeadcountGo_ne_fail emps (yearsRange s e))
  · rintro ⟨y, -, hy⟩
    exact absurd hy (not_lt.mpr (headcountAsOf_nonneg emps (yearEndOf y)))

/-! ## C8: reference tables pass through -/

/-- C8: the reference tables in `get_filtered_data`'s output are the
input reference tables, unchanged. -/
theorem c8_reference_tables_pass_through (d : HRData) (f : Filters) :
    (get_filtered_data d f).organization_unit = d.organization_unit ∧
      (get_filtered_data d f).job_role = d.job_role ∧
      (get_filtered_data d f).location = d.location :=
  ⟨rfl, rfl, rfl⟩

/-! ## C9: `get_filtered_data` does not mutate its input -/

/-- C9: viewed as a state transformer on the input dictionary,
`get_filtered_data` leaves the input component untouched: every source
operation on the input tables (`copy`, `sort_values`, `drop_duplicates`,
`merge`, `isin`, boolean indexing) returns a fresh frame, and nothing is
assigned into `data`. -/
theorem c9_input_unchanged (d : HRData) (f : Filters) :
    (get_filtered_data_run d f).1 = d :=
  rfl

/-! ## C4: filtering by every available business unit keeps every employee -/

theorem exists_mem_filterStage1 {d : HRData} {e : Employee}
    (he : e ∈ d.employee) :
    ∃ p ∈ filterStage1 d, p.employee_id = e.employee_id := by
  unfold filterStage1
  obtain ⟨bo, h⟩ := exists_mem_leftMerge _ _ _ he
  exact ⟨_, h, rfl⟩

theorem exists_mem_filterStage2 {d : HRData} {k : Nat}
    (h : ∃ p ∈ filterStage1 d, p.employee_id = k) :
    ∃ p ∈ filterStage2 d, p.employee_id = k := by
  unfold filterStage2
  obtain ⟨p, hp, hk⟩ := h
  obtain ⟨bo, hq⟩ := exists_mem_leftMerge _ _ _ hp
  exact ⟨_, hq, hk⟩

theorem exists_mem_filterStage3 {d : HRData} {k : Nat}
    (h : ∃ p ∈ filterStage2 d, p.employee_id = k) :
    ∃ p ∈ filterStage3 d, p.employee_id = k := by
  unfold filterStage3
  obtain ⟨p, hp, hk⟩ := h
  obtain ⟨bo, hq⟩ := exists_mem_leftMerge _ _ _ hp
  exact ⟨_, hq, hk⟩

theorem exists_mem_filterStage4 {d : HRData} {k : Nat}
    (h : ∃ p ∈ filterStage3 d, p.employee_id = k) :
    ∃ p ∈ filterStage4 d, p.employee_id = k := by
  unfold filterStage4
  obtain ⟨p, hp, hk⟩ := h
  obtain ⟨bo, hq⟩ := exists_mem_leftMerge _ _ _ hp
  exact ⟨_, hq, hk⟩

/-- Every employee row appears (at least once) in the enriched view. -/
theorem exists_mem_enrichForFilter {d : HRData} {e : Employee}
    (he : e ∈ d.employee) :
    ∃ en ∈ enrichForFilter d, en.employee_id = e.employee_id := by
  unfold enrichForFilter
  obtain ⟨p, hp, hk⟩ :=
    exists_mem_filterStage4 (exists_mem_filterStage3 (exists_mem_filterStage2
      (exists_mem_filterStage1 he)))
  obtain ⟨bo, hq⟩ := exists_mem_leftMerge _ _ _ hp
  exact ⟨_, hq, hk⟩

/-- A non-null `business_unit` of an enriched row comes from some row of
the `organization_unit` table. -/
theorem business_unit_of_mem_enrichForFilter {d : HRData} {en : Enriched}
    (h : en ∈ enrichForFilter d) :
    en.business_unit = none ∨
      ∃ u ∈ d.organization_unit, u.business_unit = en.business_unit := by
  unfold enrichForFilter at h
  obtain ⟨p4, hp4, lo, rfl, -⟩ := mem_leftMerge_elim h
  unfold filterStage4 at hp4
  obtain ⟨p3, hp3, uo, rfl, huo⟩ := mem_leftMerge_elim hp4
  rcases huo with rfl | ⟨u, hu, rfl, -⟩
  · exact Or.inl rfl
  · exact Or.inr ⟨u, hu, rfl⟩

/-- With every available business unit selected and the remaining
filters absent, the keep-mask holds on every enriched row. -/
theorem keepMask_full_business_units {d : HRData} {en : Enriched}
    (hen : en ∈ enrichForFilter d) :
    keepMask d
      { business_units := availableBusinessUnits d, seniority_levels := []
        date_range := none, salary_range := none, countries := [] } en = true := by
  unfold keepMask
  simp only [List.isEmpty_nil, if_true]
  have hbu : (if (availableBusinessUnits d).isEmpty then true
      else buPass (availableBusinessUnits d) en) = true := by
    cases hav : (availableBusinessUnits d).isEmpty with
    | true => simp
    | false =>
      rw [if_neg (by simp)]
      unfold buPass
      cases hb : en.business_unit with
      | none => rfl
      | some b =>
        rcases business_unit_of_mem_enrichForFilter hen with hnone | ⟨u, hu, hub⟩
        · rw [hnone] at hb; exact absurd hb (by simp)
        · rw [hb] at hub
          have : b ∈ availableBusinessUnits d := by
            unfold availableBusinessUnits
            rw [List.mem_dedup]
            exact List.mem_filterMap.mpr ⟨u, hu, hub⟩
          simp [this]
  rw [hbu]
  rfl

/-- C4: filtering by the full set of distinct non-null business units of
the `organization_unit` table, with all other filters absent, keeps the
unfiltered employee count. -/
theorem c4_full_business_units_keep_count (d : HRData) :
    (get_filtered_data d
      { business_units := availableBusinessUnits d, seniority_levels := []
        date_range := none, salary_range := none, countries := [] }).employee.length =
      d.employee.length := by
  have hall : (enrichForFilter d).filter
      (keepMask d
        { business_units := availableBusinessUnits d, seniority_levels := []
          date_range := none, salary_range := none, countries := [] }) =
      enrichForFilter d :=
    List.filter_eq_self.mpr fun en hen => keepMask_full_business_units hen
  have hemp : d.employee.filter
      (fun e => decide (e.employee_id ∈ survivingIds d
        { business_units := availableBusinessUnits d, seniority_levels := []
          date_range := none, salary_range := none, countries := [] })) =
      d.employee := by
    apply List.filter_eq_self.mpr
    intro e he
    rw [decide_eq_true_eq]
    unfold survivingIds
    rw [hall]
    obtain ⟨en, hen, hk⟩ := exists_mem_enrichForFilter he
    exact List.mem_map.mpr ⟨en, hen, hk⟩
  show (d.employee.filter _).length = d.employee.length
  rw [hemp]

/-! ## C1: how each per-field predicate treats missing values -/

/-- Employee ids passing the salary range all have a compensation row. -/
theorem mem_validSalaryIds {comp : List Compensation} {lo hi : Int} {x : Nat}
    (h : x ∈ validSalaryIds comp lo hi) :
    ∃ c ∈ comp, c.employee_id = x := by
  unfold validSalaryIds at h
  rw [List.mem_map] at h
  obtain ⟨c, hc, rfl⟩ := h
  rw [List.mem_filter] at hc
  exact ⟨c, mem_of_mem_currentPerEmployee hc.1, rfl⟩

/-- C1 counterexample: in `dNullCountry`, with a non-empty business-unit
list and a non-empty country list, the one employee's joined `country`
is null, yet the employee is dropped: a missing country does NOT pass
the country filter, refuting the claim as stated. -/
theorem c1_null_country_counterexample :
    (∀ en ∈ enrichForFilter dNullCountry, en.country = none) ∧
      fNullCountry.business_units ≠ [] ∧
      fNullCountry.countries ≠ [] ∧
      dNullCountry.employee ≠ [] ∧
      (get_filtered_data dNullCountry fNullCountry).employee = [] := by
  decide

/-- C1 amended: with a non-empty business-unit list and a non-empty
country list, an employee whose joined `business_unit` is missing passes
the business-unit filter, an employee whose joined `country` is missing
does NOT pass the country filter, and an employee whose joined
`seniority_level` (or current salary record) is missing does not pass
the seniority (or salary-range) filter. -/
theorem c1_missing_value_predicates (d : HRData) (f : Filters) (en : Enriched)
    (hbu : f.business_units ≠ []) (hctr : f.countries ≠ [])
    (hen : en ∈ enrichForFilter d) :
    (en.business_unit = none → buPass f.business_units en = true) ∧
      (en.country = none → countryPass f.countries en = false) ∧
      (en.seniority_level = none → seniorityPass f.seniority_levels en = false) ∧
      (∀ comp lo hi, d.employee_compensation = some comp →
        (∀ cr ∈ comp, cr.employee_id ≠ en.employee_id) →
        salaryPass (validSalaryIds comp lo hi) en = false) := by
  refine ⟨?_, ?_, ?_, ?_⟩
  · intro h
    unfold buPass
    rw [h]
  · intro h
    unfold countryPass
    rw [h]
  · intro h
    unfold seniorityPass
    rw [h]
  · intro comp lo hi hcomp hno
    unfold salaryPass
    apply decide_eq_false
    intro hmem
    obtain ⟨c, hcmem, hcid⟩ := mem_validSalaryIds hmem
    exact hno c hcmem hcid

/-- Witness for the amended C1 at the concrete `dNullCountry` data. -/
theorem c1_missing_value_witness :
    (enNullCountry.business_unit = none →
        buPass fNullCountry.business_units enNullCountry = true) ∧
      (enNullCountry.country = none →
        countryPass fNullCountry.countries enNullCountry = false) ∧
      (enNullCountry.seniority_level = none →
        seniorityPass fNullCountry.seniority_levels enNullCountry = false) ∧
      (∀ comp lo hi, dNullCountry.employee_compensation = some comp →
        (∀ cr ∈ comp, cr.employee_id ≠ enNullCountry.employee_id) →
        salaryPass (validSalaryIds comp lo hi) enNullCountry = false) :=
  c1_missing_value_predicates dNullCountry fNullCountry enNullCountry
    (by decide) (by decide) (by decide)

/-! ## C7: CSV fallback on the export paths -/

/-- If any table of the payload fails Parquet encoding, the ZIP path
aborts with an error (there is no `try`/`except` in
`create_zip_download`). -/
theorem create_zip_download_error_of_table_error {env : ExportEnv}
    {data : List (String × PTable)} {n : String} {t : PTable} {e : String}
    (hmem : (n, t) ∈ data)
    (hfail : export_to_parquet env t = Except.error e) :
    ∃ e2, create_zip_download env data ExportFormat.parquet = Except.error e2 := by
  induction data with
  | nil => exact absurd hmem (List.not_mem_nil _)
  | cons nt rest ih =>
    rw [List.mem_cons] at hmem
    unfold create_zip_download
    cases hhd : exportFuncFor env ExportFormat.parquet nt.2 with
    | error e1 =>
      exact ⟨e1, rfl⟩
    | ok b =>
      rcases hmem with hmem | hmem
      · rw [← hmem] at hhd
        unfold exportFuncFor at hhd
        rw [hfail] at hhd
        exact absurd hhd (by simp)
      · obtain ⟨e2, h2⟩ := ih hmem
        rw [h2]
        exact ⟨e2, rfl⟩

/-- C7 counterexample: with `pyarrow` unavailable and Parquet requested,
the individual-downloads path falls back to CSV, but the bundled ZIP
path propagates the error instead of producing CSV bytes — refuting
"on every export path ... no exception propagates". -/
theorem c7_zip_no_fallback_counterexample :
    get_download_data envNoParquet dataOneTable ExportFormat.parquet =
        [("employee", export_to_csv { rows := [["employee_id"], ["1"]] })] ∧
      create_zip_download envNoParquet dataOneTable ExportFormat.parquet =
        Except.error "pyarrow is required for Parquet export" :=
  ⟨rfl, rfl⟩

/-- C7 amended: when Parquet export is requested and the encoder is
unavailable or raises on a table, the individual-table download path
(`get_download_data`) produces CSV bytes for that table and never
raises; the bundled ZIP path (`create_zip_download`) does not fall
back — the error propagates out of it. -/
theorem c7_csv_fallback_individual_path_only (env : ExportEnv)
    (data : List (String × PTable)) (n : String) (t : PTable) (e : String)
    (hmem : (n, t) ∈ data)
    (hfail : export_to_parquet env t = Except.error e) :
    downloadOne env ExportFormat.parquet t = export_to_csv t ∧
      (n, export_to_csv t) ∈ get_download_data env data ExportFormat.parquet ∧
      ∃ e2, create_zip_download env data ExportFormat.parquet =
        Except.error e2 := by
  have hone : downloadOne env ExportFormat.parquet t = export_to_csv t := by
    unfold downloadOne exportFuncFor
    rw [hfail]
  refine ⟨hone, ?_, create_zip_download_error_of_table_error hmem hfail⟩
  unfold get_download_data
  refine List.mem_map.mpr ⟨(n, t), hmem, ?_⟩
  show (n, downloadOne env ExportFormat.parquet t) = (n, export_to_csv t)
  rw [hone]

/-- Witness for the amended C7 at the concrete no-`pyarrow` environment. -/
theorem c7_csv_fallback_witness :
    downloadOne envNoParquet ExportFormat.parquet
        { rows := [["employee_id"], ["1"]] } =
        export_to_csv { rows := [["employee_id"], ["1"]] } ∧
      ("employee", export_to_csv { rows := [["employee_id"], ["1"]] }) ∈
        get_download_data envNoParquet dataOneTable ExportFormat.parquet ∧
      ∃ e2, create_zip_download envNoParquet dataOneTable ExportFormat.parquet =
        Except.error e2 :=
  c7_csv_fallback_individual_path_only envNoParquet dataOneTable "employee"
    { rows := [["employee_id"], ["1"]] } "pyarrow is required for Parquet export"
    (by decide) rfl

/-! ## C10: `enrich_employee_data` keeps one row per employee -/

theorem length_filter_key_le_one {key : β → Nat} {l : List β}
    (hp : l.Pairwise fun a b => key a ≠ key b) (k : Nat) :
    (l.filter fun b => decide (key b = k)).length ≤ 1 := by
  apply length_filter_le_one_of_pairwise
  refine hp.imp ?_
  intro a b hne
  rintro ⟨ha, hb⟩
  rw [decide_eq_true_eq] at ha hb
  exact hne (ha.trans hb.symm)

theorem length_filter_optkey_le_one {key : β → Nat} {l : List β}
    (hp : l.Pairwise fun a b => key a ≠ key b) (jo : Option Nat) :
    (l.filter fun b => decide (jo = some (key b))).length ≤ 1 := by
  apply length_filter_le_one_of_pairwise
  refine hp.imp ?_
  intro a b hne
  rintro ⟨ha, hb⟩
  rw [decide_eq_true_eq] at ha hb
  rw [ha] at hb
  exact hne (Option.some.inj hb)

theorem pairwise_ne_currentJobsOf (d : HRData) :
    (currentJobsOf d).Pairwise fun a b => a.employee_id ≠ b.employee_id :=
  pairwise_ne_currentPerEmployee _ _ _

theorem pairwise_ne_currentOrgsOf (d : HRData) :
    (currentOrgsOf d).Pairwise fun a b => a.employee_id ≠ b.employee_id :=
  pairwise_ne_currentPerEmployee _ _ _

/-- Mapping a projection that ignores the merged columns over a left
merge with at-most-one match per left row recovers the projected left
table. -/
theorem map_leftMerge_of_unique {m : α → β → Bool} {c : α → Option β → γ}
    {g : γ → δ} {p : α → δ} (hg : ∀ a bo, g (c a bo) = p a)
    {right : List β} {left : List α}
    (h : ∀ a ∈ left, (right.filter (m a)).length ≤ 1) :
    (leftMerge m c right left).map g = left.map p := by
  rw [leftMerge_eq_map h, List.map_map]
  exact List.map_congr_left fun a _ => hg a _

theorem map_base_enrichStage5 (d : HRData)
    (hj : d.job_role.Pairwise fun a b => a.job_id ≠ b.job_id)
    (ho : d.organization_unit.Pairwise fun a b => a.org_id ≠ b.org_id)
    (hl : d.location.Pairwise fun a b => a.location_id ≠ b.location_id) :
    (enrichStage5 d).map EnrichedEmployee.base = d.employee := by
  have h1 : (enrichStage1 d).map EnrichedEmployee.base = d.employee.map (fun e => e) := by
    unfold enrichStage1
    refine map_leftMerge_of_unique ?_ ?_
    · exact fun a bo => rfl
    · exact fun a _ => length_filter_key_le_one (pairwise_ne_currentJobsOf d) a.employee_id
  have h2 : (enrichStage2 d).map EnrichedEmployee.base =
      (enrichStage1 d).map EnrichedEmployee.base := by
    unfold enrichStage2
    refine map_leftMerge_of_unique ?_ ?_
    · exact fun a bo => rfl
    · exact fun a _ => length_filter_optkey_le_one hj a.job_id
  have h3 : (enrichStage3 d).map EnrichedEmployee.base =
      (enrichStage2 d).map EnrichedEmployee.base := by
    unfold enrichStage3
    refine map_leftMerge_of_unique ?_ ?_
    · exact fun a bo => rfl
    · exact fun a _ => length_filter_key_le_one (pairwise_ne_currentOrgsOf d) a.base.employee_id
  have h4 : (enrichStage4 d).map EnrichedEmployee.base =
      (enrichStage3 d).map EnrichedEmployee.base := by
    unfold enrichStage4
    refine map_leftMerge_of_unique ?_ ?_
    · exact fun a bo => rfl
    · exact fun a _ => length_filter_optkey_le_one ho a.org_id
  have h5 : (enrichStage5 d).map EnrichedEmployee.base =
      (enrichStage4 d).map EnrichedEmployee.base := by
    unfold enrichStage5
    refine map_leftMerge_of_unique ?_ ?_
    · exact fun a bo => rfl
    · exact fun a _ => length_filter_key_le_one hl a.base.location_id
  rw [h5, h4, h3, h2, h1, List.map_id']

/-- Every output row of `enrich_employee_data` extends a row of
`enrichStage5` (the compensation merge only adds the `comp` columns). -/
theorem mem_enrich_elim_stage5 {d : HRData} {r : EnrichedEmployee}
    (h : r ∈ enrich_employee_data d) :
    ∃ p ∈ enrichStage5 d, r.base = p.base ∧ r.job_id = p.job_id ∧
      r.role = p.role ∧ r.org_id = p.org_id ∧ r.orgUnit = p.orgUnit := by
  unfold enrich_employee_data at h
  cases hcomp : d.employee_compensation with
  | none =>
    rw [hcomp] at h
    exact ⟨r, h, rfl, rfl, rfl, rfl, rfl⟩
  | some comp =>
    rw [hcomp] at h
    have h6 : r ∈ enrichStage6 d comp := h
    unfold enrichStage6 at h6
    obtain ⟨p, hp, co, rfl, -⟩ := mem_leftMerge_elim h6
    exact ⟨p, hp, rfl, rfl, rfl, rfl, rfl⟩

/-- An employee with no job-assignment row gets null job columns. -/
theorem job_null_of_no_assignment {d : HRData} {p : EnrichedEmployee}
    (hp : p ∈ enrichStage5 d)
    (hno : ∀ a ∈ d.employee_job_assignment, a.employee_id ≠ p.base.employee_id) :
    p.job_id = none ∧ p.role = none := by
  unfold enrichStage5 at hp
  obtain ⟨p4, hp4, lo, rfl, -⟩ := mem_leftMerge_elim hp
  unfold enrichStage4 at hp4
  obtain ⟨p3, hp3, uo, rfl, -⟩ := mem_leftMerge_elim hp4
  unfold enrichStage3 at hp3
  obtain ⟨p2, hp2, oo, rfl, -⟩ := mem_leftMerge_elim hp3
  unfold enrichStage2 at hp2
  obtain ⟨p1, hp1, ro, rfl, hro⟩ := mem_leftMerge_elim hp2
  unfold enrichStage1 at hp1
  obtain ⟨e, he, jo, rfl, hjo⟩ := mem_leftMerge_elim hp1
  have hjonone : jo = none := by
    rcases hjo with rfl | ⟨j, hj, rfl, hm⟩
    · rfl
    · have hj' : j ∈ d.employee_job_assignment := by
        unfold currentJobsOf at hj
        exact mem_of_mem_currentPerEmployee hj
      exact absurd (of_decide_eq_true hm) (hno j hj')
  subst hjonone
  refine ⟨rfl, ?_⟩
  rcases hro with rfl | ⟨jr, hjr, rfl, hm2⟩
  · rfl
  · simp at hm2

/-- An employee with no org-assignment row gets null org columns. -/
theorem org_null_of_no_assignment {d : HRData} {p : EnrichedEmployee}
    (hp : p ∈ enrichStage5 d)
    (hno : ∀ a ∈ d.employee_org_assignment, a.employee_id ≠ p.base.employee_id) :
    p.org_id = none ∧ p.orgUnit = none := by
  unfold enrichStage5 at hp
  obtain ⟨p4, hp4, lo, rfl, -⟩ := mem_leftMerge_elim hp
  unfold enrichStage4 at hp4
  obtain ⟨p3, hp3, uo, rfl, huo⟩ := mem_leftMerge_elim hp4
  unfold enrichStage3 at hp3
  obtain ⟨p2, hp2, oo, rfl, hoo⟩ := mem_leftMerge_elim hp3
  have hoonone : oo = none := by
    rcases hoo with rfl | ⟨o, hog, rfl, hm⟩
    · rfl
    · have ho' : o ∈ d.employee_org_assignment := by
        unfold currentOrgsOf at hog
        exact mem_of_mem_currentPerEmployee hog
      exact absurd (of_decide_eq_true hm) (hno o ho')
  subst hoonone
  refine ⟨rfl, ?_⟩
  rcases huo with rfl | ⟨u, hu, rfl, hm2⟩
  · rfl
  · simp at hm2

/-- An employee with no compensation row gets a null compensation
column. -/
theorem comp_null_of_no_record {d : HRData} {r : EnrichedEmployee}
    {comp : List Compensation}
    (hcomp : d.employee_compensation = some comp)
    (h : r ∈ enrich_employee_data d)
    (hno : ∀ cr ∈ comp, cr.employee_id ≠ r.base.employee_id) :
    r.comp = none := by
  unfold enrich_employee_data at h
  rw [hcomp] at h
  have h6 : r ∈ enrichStage6 d comp := h
  unfold enrichStage6 at h6
  obtain ⟨p, hp, co, rfl, hco⟩ := mem_leftMerge_elim h6
  rcases hco with rfl | ⟨cr, hcr, rfl, hm⟩
  · rfl
  · have hcr' : cr ∈ comp := mem_of_mem_currentPerEmployee hcr
    exact absurd (of_decide_eq_true hm) (hno cr hcr')

/-- C10: with unique reference keys, `enrich_employee_data` returns
exactly one output row per input employee row, in the same order, and
employees lacking a job, org, or compensation record receive nulls in
the corresponding merged columns rather than being dropped. -/
theorem c10_enrich_one_row_per_employee (d : HRData)
    (hj : d.job_role.Pairwise fun a b => a.job_id ≠ b.job_id)
    (ho : d.organization_unit.Pairwise fun a b => a.org_id ≠ b.org_id)
    (hl : d.location.Pairwise fun a b => a.location_id ≠ b.location_id) :
    (enrich_employee_data d).map EnrichedEmployee.base = d.employee ∧
      ∀ r ∈ enrich_employee_data d,
        ((∀ a ∈ d.employee_job_assignment, a.employee_id ≠ r.base.employee_id) →
          r.job_id = none ∧ r.role = none) ∧
        ((∀ a ∈ d.employee_org_assignment, a.employee_id ≠ r.base.employee_id) →
          r.org_id = none ∧ r.orgUnit = none) ∧
        (∀ comp, d.employee_compensation = some comp →
          (∀ cr ∈ comp, cr.employee_id ≠ r.base.employee_id) →
          r.comp = none) := by
  constructor
  · unfold enrich_employee_data
    cases hcomp : d.employee_compensation with
    | none => exact map_base_enrichStage5 d hj ho hl
    | some comp =>
      have h6 : (enrichStage6 d comp).map EnrichedEmployee.base =
          (enrichStage5 d).map EnrichedEmployee.base := by
        unfold enrichStage6
        refine map_leftMerge_of_unique ?_ ?_
        · exact fun a bo => rfl
        · exact fun a _ => length_filter_key_le_one
            (pairwise_ne_currentPerEmployee Compensation.employee_id
              Compensation.start_date comp) a.base.employee_id
      rw [h6]
      exact map_base_enrichStage5 d hj ho hl
  · intro r hr
    obtain ⟨p, hp, hbase, hjob, hrole, horg, hunit⟩ := mem_enrich_elim_stage5 hr
    refine ⟨?_, ?_, ?_⟩
    · intro hno
      rw [hbase] at hno
      rw [hjob, hrole]
      exact job_null_of_no_assignment hp hno
    · intro hno
      rw [hbase] at hno
      rw [horg, hunit]
      exact org_null_of_no_assignment hp hno
    · intro comp hcomp hno
      exact comp_null_of_no_record hcomp hr hno

/-- Witness for C10 at the concrete `dEnrich` data set. -/
theorem c10_enrich_witness :
    (enrich_employee_data dEnrich).map EnrichedEmployee.base = dEnrich.employee ∧
      ∀ r ∈ enrich_employee_data dEnrich,
        ((∀ a ∈ dEnrich.employee_job_assignment, a.employee_id ≠ r.base.employee_id) →
          r.job_id = none ∧ r.role = none) ∧
        ((∀ a ∈ dEnrich.employee_org_assignment, a.employee_id ≠ r.base.employee_id) →
          r.org_id = none ∧ r.orgUnit = none) ∧
        (∀ comp, dEnrich.employee_compensation = some comp →
          (∀ cr ∈ comp, cr.employee_id ≠ r.base.employee_id) →
          r.comp = none) :=
  c10_enrich_one_row_per_employee dEnrich (by decide) (by decide) (by decide)
